import Mathlib

/-!
Verification development for the tuman-vpn covert transport core.

The Python sources embedded here are:
* `src/core/storage/yanotes.py` — the YaNotes storage backend (codec,
  title grammar, note pool, sender batching, inbox reassembly, public API);
* `src/client/tunnel.py` and `src/server/tunnel.py` — the tunnel loops.

Bytes are modelled as `List Nat` with every element `< 256`; machine
dictionaries become association lists or update functions; fallible
operations return `Option`.
-/

namespace TumanVPN

/-! ### Configuration constants (yanotes.py lines 30-42) -/

def MAX_SNIPPET_CHARS : Nat := 2000000

def TYPE_DATA : String := "DATA"

def TYPE_RQST : String := "RQST"

def TYPE_RESP : String := "RESP"

/-! ### base65536 codec

The code calls `base65536.encode` / `base65536.decode` (a third-party
library, not part of this repository). -/

/-- Modelled from the spec: the base65536 codec used by `_queue_entry` and
`_process_batch` is an external library; per §4.1 it packs two payload
bytes into one code point (a 256-aligned block selected by the second
byte, offset by the first byte) and a trailing lone byte into a distinct
padding block. Here block `b+1` holds pairs whose second byte is `b`, and
block `0` is the padding block for a lone final byte. -/
def base65536_encode : List Nat → List Nat
  | [] => []
  | [a] => [a]
  | a :: b :: rest => ((b + 1) * 256 + a) :: base65536_encode rest

/-- Modelled from the spec: inverse direction of the base65536 codec.
A code point in the padding block (block `0`) is only legal as the final
code point; any other malformed code point makes decoding fail. -/
def base65536_decode : List Nat → Option (List Nat)
  | [] => some []
  | cp :: rest =>
    if cp < 256 then
      if rest.isEmpty then some [cp] else none
    else
      let a := cp % 256
      let b := cp / 256 - 1
      if b < 256 then
        match base65536_decode rest with
        | some bs => some (a :: b :: bs)
        | none => none
      else none

theorem base65536_decode_encode (l : List Nat) (h : ∀ x ∈ l, x < 256) :
    base65536_decode (base65536_encode l) = some l := by
  induction l using base65536_encode.induct with
  | case1 => rfl
  | case2 a =>
    have ha : a < 256 := h a (by simp)
    simp [base65536_encode, base65536_decode, ha]
  | case3 a b rest ih =>
    have ha : a < 256 := h a (by simp)
    have hb : b < 256 := h b (by simp)
    have hcp : ¬ ((b + 1) * 256 + a < 256) := by nlinarith
    have hmod : ((b + 1) * 256 + a) % 256 = a := by
      rw [Nat.add_comm, Nat.add_mul_mod_self_right, Nat.mod_eq_of_lt ha]
    have hdiv : ((b + 1) * 256 + a) / 256 = b + 1 := by
      rw [Nat.add_comm, Nat.add_mul_div_right _ _ (by norm_num : 0 < 256),
        Nat.div_eq_of_lt ha]
      omega
    have ihr := ih (fun x hx => h x (by simp [hx]))
    simp only [base65536_encode, base65536_decode, hcp, if_false, hmod, hdiv]
    simp [ihr, hb]

theorem base65536_encode_length (l : List Nat) :
    (base65536_encode l).length = (l.length + 1) / 2 := by
  induction l using base65536_encode.induct with
  | case1 => rfl
  | case2 a => simp [base65536_encode]
  | case3 a b rest ih => simp [base65536_encode, ih]; omega

/-! ### AES-256-GCM model (`_encrypt_data` / `_decrypt_data`, lines 216-230)

The code calls `cryptography`'s `AESGCM` with a SHA-256-derived key. -/

/-- Modelled from the spec: the AES-256-GCM cipher behind `self._cipher` is
an external library. GCM is counter-mode encryption followed by an
authentication tag over the ciphertext: the model abstracts the key- and
nonce-derived byte keystream as `ks` and the tag computation as `tagF`
(both already specialised to the SHA-256-derived key). `encrypt` is absent
when no passphrase is configured (`self._encrypt = False`). -/
structure CodecCtx where
  encrypt : Bool
  ks : List Nat → Nat → Nat
  tagF : List Nat → List Nat → List Nat

/-- Counter-mode byte stream: XOR each byte with the keystream byte at its
absolute position. -/
def xor_keystream (ks : Nat → Nat) : Nat → List Nat → List Nat
  | _, [] => []
  | i, a :: rest => (a ^^^ ks i) :: xor_keystream ks (i + 1) rest

theorem xor_keystream_length (ks : Nat → Nat) (i : Nat) (l : List Nat) :
    (xor_keystream ks i l).length = l.length := by
  induction l generalizing i with
  | nil => rfl
  | cons a rest ih => simp [xor_keystream, ih]

theorem xor_keystream_involutive (ks : Nat → Nat) (i : Nat) (l : List Nat) :
    xor_keystream ks i (xor_keystream ks i l) = l := by
  induction l generalizing i with
  | nil => rfl
  | cons a rest ih =>
    simp only [xor_keystream, ih]
    congr 1
    rw [Nat.xor_assoc, Nat.xor_self, Nat.xor_zero]

theorem xor_keystream_lt (ks : Nat → Nat) (i : Nat) (l : List Nat)
    (hl : ∀ x ∈ l, x < 256) (hk : ∀ j, ks j < 256) :
    ∀ x ∈ xor_keystream ks i l, x < 256 := by
  induction l generalizing i with
  | nil => simp [xor_keystream]
  | cons a rest ih =>
    intro x hx
    simp only [xor_keystream, List.mem_cons] at hx
    rcases hx with rfl | hx
    · exact Nat.xor_lt_two_pow (n := 8) (hl a (by simp)) (hk i)
    · exact ih (i + 1) (fun y hy => hl y (by simp [hy])) x hx

/-- The library call `self._cipher.encrypt(nonce, data, None)`: counter-mode
ciphertext followed by the 16-byte authentication tag. -/
def aesgcm_encrypt (ctx : CodecCtx) (nonce data : List Nat) : List Nat :=
  let ct := xor_keystream (ctx.ks nonce) 0 data
  ct ++ ctx.tagF nonce ct

/-- The library call `self._cipher.decrypt(nonce, ciphertext, None)`: split
off the 16-byte tag, verify it, and undo the counter-mode XOR. Tag
mismatch raises `InvalidTag` in the library, modelled as `none`. -/
def aesgcm_decrypt (ctx : CodecCtx) (nonce ctt : List Nat) : Option (List Nat) :=
  let ct := ctt.take (ctt.length - 16)
  let tag := ctt.drop (ctt.length - 16)
  if tag = ctx.tagF nonce ct then some (xor_keystream (ctx.ks nonce) 0 ct) else none

/-- `_encrypt_data` (yanotes.py lines 216-222): pass through when encryption
is disabled, otherwise prepend the fresh 12-byte nonce to the AES-GCM
ciphertext. The nonce (`os.urandom(12)`) is passed as a parameter. -/
def encrypt_data (ctx : CodecCtx) (nonce data : List Nat) : List Nat :=
  if ctx.encrypt then nonce ++ aesgcm_encrypt ctx nonce data else data

/-- `_decrypt_data` (yanotes.py lines 224-230): pass through when encryption
is disabled, otherwise split the 12-byte nonce back off and decrypt. -/
def decrypt_data (ctx : CodecCtx) (data : List Nat) : Option (List Nat) :=
  if ctx.encrypt then aesgcm_decrypt ctx (data.take 12) (data.drop 12) else some data

theorem decrypt_encrypt_data (ctx : CodecCtx) (nonce data : List Nat)
    (hn : nonce.length = 12) (htl : ∀ n c, (ctx.tagF n c).length = 16) :
    decrypt_data ctx (encrypt_data ctx nonce data) = some data := by
  unfold encrypt_data decrypt_data
  by_cases he : ctx.encrypt
  · simp only [he, if_true]
    have ht : (nonce ++ aesgcm_encrypt ctx nonce data).take 12 = nonce := by
      rw [← hn, List.take_left]
    have hd : (nonce ++ aesgcm_encrypt ctx nonce data).drop 12 = aesgcm_encrypt ctx nonce data := by
      rw [← hn, List.drop_left]
    rw [ht, hd]
    unfold aesgcm_encrypt aesgcm_decrypt
    have hlen : (xor_keystream (ctx.ks nonce) 0 data ++
        ctx.tagF nonce (xor_keystream (ctx.ks nonce) 0 data)).length -
        16 = (xor_keystream (ctx.ks nonce) 0 data).length := by
      simp [List.length_append, htl]
    simp only [hlen]
    rw [List.take_left, List.drop_left]
    simp [xor_keystream_involutive]
  · simp [he]

/-! ### The payload pipeline (`_queue_entry` lines 559-564 and
`_process_batch` lines 495-501) -/

/-- Payload half of `_queue_entry`: encrypt then base65536-encode. -/
def send_payload (ctx : CodecCtx) (nonce data : List Nat) : List Nat :=
  base65536_encode (encrypt_data ctx nonce data)

/-- Payload half of `_process_batch`: base65536-decode then decrypt. -/
def receive_payload (ctx : CodecCtx) (encoded : List Nat) : Option (List Nat) :=
  match base65536_decode encoded with
  | some encrypted => decrypt_data ctx encrypted
  | none => none

theorem encrypt_data_bytes_lt (ctx : CodecCtx) (nonce data : List Nat)
    (hb : ∀ x ∈ data, x < 256) (hnb : ∀ x ∈ nonce, x < 256)
    (hks : ∀ n i, ctx.ks n i < 256)
    (htb : ∀ n c x, x ∈ ctx.tagF n c → x < 256) :
    ∀ x ∈ encrypt_data ctx nonce data, x < 256 := by
  unfold encrypt_data
  by_cases he : ctx.encrypt
  · simp only [he, if_true]
    intro x hx
    rw [List.mem_append] at hx
    rcases hx with hx | hx
    · exact hnb x hx
    · unfold aesgcm_encrypt at hx
      rw [List.mem_append] at hx
      rcases hx with hx | hx
      · exact xor_keystream_lt _ 0 data hb (hks nonce) x hx
      · exact htb nonce _ x hx
  · simpa [he] using hb

/-- C1. Codec round-trip: base65536 decoding is a left inverse of encoding
on byte strings; with an encryption passphrase configured,
`_decrypt_data (_encrypt_data b) = b` where `_encrypt_data` prepends the
fresh 12-byte nonce to the AES-256-GCM ciphertext and `_decrypt_data`
splits it back off; hence the `_queue_entry` send pipeline (encrypt then
encode) composed with the `_process_batch` receive pipeline (decode then
decrypt) is the identity on every payload. -/
theorem codec_round_trip (ctx : CodecCtx) (nonce data : List Nat)
    (hb : ∀ x ∈ data, x < 256) (hn : nonce.length = 12)
    (hnb : ∀ x ∈ nonce, x < 256)
    (hks : ∀ n i, ctx.ks n i < 256)
    (htl : ∀ n c, (ctx.tagF n c).length = 16)
    (htb : ∀ n c x, x ∈ ctx.tagF n c → x < 256) :
    base65536_decode (base65536_encode data) = some data
      ∧ decrypt_data ctx (encrypt_data ctx nonce data) = some data
      ∧ receive_payload ctx (send_payload ctx nonce data) = some data := by
  refine ⟨base65536_decode_encode data hb, decrypt_encrypt_data ctx nonce data hn htl, ?_⟩
  unfold receive_payload send_payload
  rw [base65536_decode_encode _ (encrypt_data_bytes_lt ctx nonce data hb hnb hks htb)]
  exact decrypt_encrypt_data ctx nonce data hn htl

/-- Concrete instantiation of `codec_round_trip`: encryption enabled, an
all-zero keystream and tag model, payload `[5, 200, 31]`. -/
theorem codec_round_trip_witness :
    receive_payload ⟨true, fun _ _ => 0, fun _ _ => List.replicate 16 0⟩
        (send_payload ⟨true, fun _ _ => 0, fun _ _ => List.replicate 16 0⟩
          (List.replicate 12 0) [5, 200, 31]) = some [5, 200, 31] :=
  (codec_round_trip ⟨true, fun _ _ => 0, fun _ _ => List.replicate 16 0⟩
    (List.replicate 12 0) [5, 200, 31]
    (by decide) (by decide) (by decide)
    (fun n i => by show (0 : Nat) < 256; decide)
    (fun n c => by show (List.replicate 16 (0 : Nat)).length = 16; simp)
    (fun n c x hx => by
      rw [List.eq_of_mem_replicate hx]; decide)).2.2

/-! ### Title grammar (`TITLE_RE` line 42, `_make_title` lines 180-181,
`_parse_title` lines 183-193) -/

/-- Character class `\d` of the anchored title regex. -/
def is_digit (c : Char) : Prop := 48 ≤ c.toNat ∧ c.toNat ≤ 57

instance (c : Char) : Decidable (is_digit c) := by unfold is_digit; infer_instance

/-- Character class `\w` of the anchored title regex (ASCII fragment:
letters, digits and underscore). -/
def is_word_char (c : Char) : Prop :=
  (65 ≤ c.toNat ∧ c.toNat ≤ 90) ∨ (97 ≤ c.toNat ∧ c.toNat ≤ 122) ∨
    (48 ≤ c.toNat ∧ c.toNat ≤ 57) ∨ c.toNat = 95

instance (c : Char) : Decidable (is_word_char c) := by unfold is_word_char; infer_instance

/-- Numeric value of a run of decimal digit characters, as `int()` computes
it for a regex group. -/
def digits_to_nat (l : List Char) : Nat :=
  l.foldl (fun a c => a * 10 + (c.toNat - 48)) 0

theorem digits_foldl_lt (l : List Char) (hd : ∀ c ∈ l, is_digit c) (a : Nat) :
    l.foldl (fun a c => a * 10 + (c.toNat - 48)) a < (a + 1) * 10 ^ l.length := by
  induction l generalizing a with
  | nil => simp
  | cons c rest ih =>
    have hc : c.toNat - 48 ≤ 9 := by
      have := hd c (by simp)
      unfold is_digit at this
      omega
    simp only [List.foldl_cons, List.length_cons]
    calc (rest.foldl (fun a c => a * 10 + (c.toNat - 48)) (a * 10 + (c.toNat - 48)))
        < (a * 10 + (c.toNat - 48) + 1) * 10 ^ rest.length :=
          ih (fun x hx => hd x (by simp [hx])) _
      _ ≤ ((a + 1) * 10) * 10 ^ rest.length :=
          Nat.mul_le_mul_right _ (by omega)
      _ = (a + 1) * 10 ^ (rest.length + 1) := by ring

theorem digits_to_nat_lt (l : List Char) (hd : ∀ c ∈ l, is_digit c) :
    digits_to_nat l < 10 ^ l.length := by
  have := digits_foldl_lt l hd 0
  simpa [digits_to_nat] using this

/-- The fields of one parsed title (`_parse_title`'s result dict). -/
structure ParsedTitle where
  direction : Char
  request_id : String
  chunk : Nat
  total : Nat
  msg_type : String
deriving DecidableEq

/-- `_parse_title` (yanotes.py lines 183-193): match the anchored regex
`([<>])(.{16}):(\d{5})/(\d{5}):(\w{4})` against the whole string and
extract the five groups. `.` matches anything except a newline; the final
`$` of `re.match` also accepts a single trailing newline. -/
def parse_title (s : List Char) : Option ParsedTitle :=
  match s with
  | [] => none
  | d :: rest =>
    let rid := rest.take 16
    let r1 := rest.drop 16
    match r1 with
    | [] => none
    | c1 :: r2 =>
      let chunkcs := r2.take 5
      let r3 := r2.drop 5
      match r3 with
      | [] => none
      | c2 :: r4 =>
        let totalcs := r4.take 5
        let r5 := r4.drop 5
        match r5 with
        | [] => none
        | c3 :: r6 =>
          let typecs := r6.take 4
          let r7 := r6.drop 4
          if (d = '<' ∨ d = '>') ∧ rid.length = 16 ∧ (∀ c ∈ rid, ¬ c = '\n')
              ∧ c1 = ':' ∧ chunkcs.length = 5 ∧ (∀ c ∈ chunkcs, is_digit c)
              ∧ c2 = '/' ∧ totalcs.length = 5 ∧ (∀ c ∈ totalcs, is_digit c)
              ∧ c3 = ':' ∧ typecs.length = 4 ∧ (∀ c ∈ typecs, is_word_char c)
              ∧ (r7 = [] ∨ r7 = ['\n'])
          then some ⟨d, String.mk rid, digits_to_nat chunkcs, digits_to_nat totalcs,
            String.mk typecs⟩
          else none

/-- `%05d` formatting used by `_make_title`: zero-pad the decimal digits of
`n` to at least five characters. -/
def fmt05 (n : Nat) : List Char :=
  let ds := Nat.toDigits 10 n
  List.replicate (5 - ds.length) '0' ++ ds

/-- `_make_title` (yanotes.py lines 180-181). -/
def make_title (send_direction : Char) (request_id : String) (chunk total : Nat)
    (msg_type : String) : List Char :=
  send_direction :: request_id.toList ++ ':' :: fmt05 chunk ++ '/' :: fmt05 total
    ++ ':' :: msg_type.toList

/-- C8 counterexample: the claim requires `1 ≤ chunk` for every accepted
title, but the regex group `\d{5}` matches `00000`, so `_parse_title`
accepts a title whose chunk field is `0`. -/
theorem parse_title_bounds_counterexample :
    ∃ p, parse_title (String.toList "<AAAAAAAAAAAAAAAA:00000/00000:DATA") = some p
      ∧ p.chunk < 1 :=
  ⟨⟨'<', "AAAAAAAAAAAAAAAA", 0, 0, "DATA"⟩, by decide, by decide⟩

/-- C8 (amended: `0 ≤ chunk` instead of `1 ≤ chunk`). Every string accepted
by `_parse_title` yields fields with `direction ∈ {<, >}`,
`len(request_id) = 16`, `chunk ≤ 99999`, `total ≤ 99999` and
`len(type) = 4`; strings not matching the regex yield `None`. -/
theorem parse_title_bounds (s : List Char) (p : ParsedTitle)
    (h : parse_title s = some p) :
    (p.direction = '<' ∨ p.direction = '>') ∧ p.request_id.length = 16
      ∧ p.chunk ≤ 99999 ∧ p.total ≤ 99999 ∧ p.msg_type.length = 4 := by
  cases s with
  | nil => simp [parse_title] at h
  | cons d rest =>
    simp only [parse_title] at h
    rcases h1 : List.drop 16 rest with _ | ⟨c1, r2⟩
    · simp [h1] at h
    simp only [h1] at h
    rcases h2 : List.drop 5 r2 with _ | ⟨c2, r4⟩
    · simp [h2] at h
    simp only [h2] at h
    rcases h3 : List.drop 5 r4 with _ | ⟨c3, r6⟩
    · simp [h3] at h
    simp only [h3] at h
    split at h
    · rename_i hcond
      obtain ⟨hd, hrid, -, -, hck, hckd, -, htt, httd, -, hty, -, -⟩ := hcond
      have hchunk : digits_to_nat (r2.take 5) ≤ 99999 := by
        have := digits_to_nat_lt (r2.take 5) hckd
        rw [hck] at this
        omega
      have htotal : digits_to_nat (r4.take 5) ≤ 99999 := by
        have := digits_to_nat_lt (r4.take 5) httd
        rw [htt] at this
        omega
      injection h with h
      subst h
      refine ⟨hd, ?_, hchunk, htotal, ?_⟩
      · simpa [String.length] using hrid
      · simpa [String.length] using hty
    · simp at h

/-- Instantiation of `parse_title_bounds` at a concrete accepted title. -/
theorem parse_title_bounds_witness :
    parse_title (String.toList ">1700000000000abc:00001/00000:DATA")
        = some ⟨'>', "1700000000000abc", 1, 0, "DATA"⟩
      ∧ ((⟨'>', "1700000000000abc", 1, 0, "DATA"⟩ : ParsedTitle).direction = '<'
          ∨ (⟨'>', "1700000000000abc", 1, 0, "DATA"⟩ : ParsedTitle).direction = '>') :=
  ⟨by decide,
    (parse_title_bounds (String.toList ">1700000000000abc:00001/00000:DATA")
      ⟨'>', "1700000000000abc", 1, 0, "DATA"⟩ (by decide)).1⟩

/-! ### Note pool (`_get_free_note` lines 195-202, `_release_note`
lines 204-208) -/

/-- The mutable pool state guarded by `self._pool_lock`. -/
structure PoolState where
  free_notes : Finset String
  busy_notes : Finset String
deriving DecidableEq

/-- `_release_note` (yanotes.py lines 204-208): discard from busy, add to
free. -/
def release_note (s : PoolState) (nid : String) : PoolState :=
  ⟨insert nid s.free_notes, s.busy_notes.erase nid⟩

/-- `_get_free_note` (yanotes.py lines 195-202): `set.pop()` removes an
arbitrary element, so the step is a relation on states paired with the
returned value. -/
inductive GetFreeNote : PoolState → Option String × PoolState → Prop
  | none_free {s : PoolState} : s.free_notes = ∅ → GetFreeNote s (none, s)
  | pop {s : PoolState} (nid : String) : nid ∈ s.free_notes →
      GetFreeNote s (some nid, ⟨s.free_notes.erase nid, insert nid s.busy_notes⟩)

/-- One pool operation: a `_get_free_note` call, or a `_release_note` call
on an id of the write pool (the only ids the code ever releases). -/
inductive PoolStep (wp : Finset String) : PoolState → PoolState → Prop
  | get {s : PoolState} {r : Option String} {s' : PoolState} :
      GetFreeNote s (r, s') → PoolStep wp s s'
  | rel {s : PoolState} (nid : String) : nid ∈ wp →
      PoolStep wp s (release_note s nid)

/-- States reachable from the initial state
`free = set(write_pool), busy = ∅` (yanotes.py lines 90-91) by
`_get_free_note` and `_release_note` operations. -/
inductive PoolReachable (wp : Finset String) : PoolState → Prop
  | init : PoolReachable wp ⟨wp, ∅⟩
  | step {s s' : PoolState} : PoolReachable wp s → PoolStep wp s s' →
      PoolReachable wp s'

theorem pool_inv_step (wp : Finset String) (s s' : PoolState)
    (hinv : s.free_notes ∩ s.busy_notes = ∅ ∧ s.free_notes ∪ s.busy_notes = wp)
    (hstep : PoolStep wp s s') :
    s'.free_notes ∩ s'.busy_notes = ∅ ∧ s'.free_notes ∪ s'.busy_notes = wp := by
  obtain ⟨hdis, huni⟩ := hinv
  have hdis' : ∀ x, x ∈ s.free_notes → x ∈ s.busy_notes → False := by
    intro x hf hb
    have : x ∈ s.free_notes ∩ s.busy_notes := Finset.mem_inter.2 ⟨hf, hb⟩
    simp [hdis] at this
  cases hstep with
  | get hg =>
    cases hg with
    | none_free h => exact ⟨hdis, huni⟩
    | pop nid hmem =>
      constructor
      · apply Finset.eq_empty_of_forall_not_mem
        intro x hx
        rw [Finset.mem_inter] at hx
        obtain ⟨hx1, hx2⟩ := hx
        rw [Finset.mem_erase] at hx1
        rw [Finset.mem_insert] at hx2
        obtain ⟨hne, hf⟩ := hx1
        rcases hx2 with rfl | hb
        · exact hne rfl
        · exact hdis' x hf hb
      · ext x
        simp only [Finset.mem_union, Finset.mem_erase, Finset.mem_insert]
        constructor
        · rintro (⟨-, hf⟩ | (rfl | hb))
          · rw [← huni]; exact Finset.mem_union.2 (Or.inl hf)
          · rw [← huni]; exact Finset.mem_union.2 (Or.inl hmem)
          · rw [← huni]; exact Finset.mem_union.2 (Or.inr hb)
        · intro hx
          rw [← huni] at hx
          rcases Finset.mem_union.1 hx with hf | hb
          · by_cases hxe : x = nid
            · exact Or.inr (Or.inl hxe)
            · exact Or.inl ⟨hxe, hf⟩
          · exact Or.inr (Or.inr hb)
  | rel nid hwp =>
    constructor
    · apply Finset.eq_empty_of_forall_not_mem
      intro x hx
      rw [Finset.mem_inter] at hx
      obtain ⟨hx1, hx2⟩ := hx
      simp only [release_note] at hx1 hx2
      rw [Finset.mem_insert] at hx1
      rw [Finset.mem_erase] at hx2
      obtain ⟨hne, hb⟩ := hx2
      rcases hx1 with rfl | hf
      · exact hne rfl
      · exact hdis' x hf hb
    · ext x
      simp only [release_note, Finset.mem_union, Finset.mem_insert, Finset.mem_erase]
      constructor
      · rintro ((rfl | hf) | ⟨-, hb⟩)
        · exact hwp
        · rw [← huni]; exact Finset.mem_union.2 (Or.inl hf)
        · rw [← huni]; exact Finset.mem_union.2 (Or.inr hb)
      · intro hx
        by_cases hxe : x = nid
        · exact Or.inl (Or.inl hxe)
        · rw [← huni] at hx
          rcases Finset.mem_union.1 hx with hf | hb
          · exact Or.inl (Or.inr hf)
          · exact Or.inr ⟨hxe, hb⟩

/-- C7. Note-pool partition invariant: from the initial state
`free = write_pool, busy = ∅`, every sequence of `_get_free_note` and
`_release_note` operations (with released ids in the write pool) keeps
`free ∩ busy = ∅` and `free ∪ busy = write_pool`; `_get_free_note` moves
exactly one id from free to busy, or returns `None` leaving the state
unchanged when free is empty; `_release_note` moves the id from busy to
free and is idempotent. -/
theorem note_pool_partition (wp : Finset String) (s : PoolState)
    (h : PoolReachable wp s) :
    (s.free_notes ∩ s.busy_notes = ∅ ∧ s.free_notes ∪ s.busy_notes = wp)
      ∧ (∀ r s', GetFreeNote s (r, s') →
          (r = none → s' = s ∧ s.free_notes = ∅)
            ∧ (∀ nid, r = some nid → nid ∈ s.free_notes
                ∧ s'.free_notes = s.free_notes.erase nid
                ∧ s'.busy_notes = insert nid s.busy_notes))
      ∧ (∀ nid, release_note (release_note s nid) nid = release_note s nid) := by
  refine ⟨?_, ?_, ?_⟩
  · induction h with
    | init => simp
    | step hr hstep ih => exact pool_inv_step wp _ _ ih hstep
  · intro r s' hg
    cases hg with
    | none_free hemp =>
      exact ⟨fun _ => ⟨rfl, hemp⟩, fun nid hn => by simp at hn⟩
    | pop nid hmem =>
      refine ⟨fun hn => by simp at hn, fun nid' hn => ?_⟩
      obtain rfl : nid = nid' := by simpa using hn
      exact ⟨hmem, rfl, rfl⟩
  · intro nid
    simp [release_note, Finset.insert_idem, Finset.erase_idem]

/-- Instantiation of `note_pool_partition` one step after initialisation of
a two-note write pool. -/
theorem note_pool_partition_witness :
    PoolReachable {"101_1_1", "101_1_2"} (release_note ⟨{"101_1_1", "101_1_2"}, ∅⟩ "101_1_1")
      ∧ (release_note ⟨{"101_1_1", "101_1_2"}, ∅⟩ "101_1_1").free_notes
          ∩ (release_note ⟨{"101_1_1", "101_1_2"}, ∅⟩ "101_1_1").busy_notes = ∅ := by
  have hr : PoolReachable {"101_1_1", "101_1_2"}
      (release_note ⟨{"101_1_1", "101_1_2"}, ∅⟩ "101_1_1") :=
    PoolReachable.step PoolReachable.init (PoolStep.rel _ (by decide))
  exact ⟨hr, (note_pool_partition _ _ hr).1.1⟩

/-! ### Inbox (`_store_entry` lines 519-555, `get` lines 594-599,
`head` lines 601-606)

Python dictionaries keyed by chunk index become association lists; the
outer dictionaries keyed by `request_id:type` strings become update
functions. -/

/-- A value of the per-key chunk dictionary `inbox_data[key]`: the `DATA`
branch stores raw payload bytes, the multi-chunk branch stores the pair
`(total, data)`. -/
inductive EntryVal
  | plain (data : List Nat)
  | chunked (total : Nat) (data : List Nat)
deriving DecidableEq

/-- Dictionary lookup `chunks.get(k)` on an association list. -/
def alLookup (k : Nat) (l : List (Nat × EntryVal)) : Option EntryVal :=
  (l.find? fun e => e.1 == k).map Prod.snd

/-- Dictionary assignment `chunks[k] = v` on an association list. -/
def alInsert (k : Nat) (v : EntryVal) (l : List (Nat × EntryVal)) :
    List (Nat × EntryVal) :=
  if (alLookup k l).isSome then l.map fun e => if e.1 = k then (k, v) else e
  else l ++ [(k, v)]

/-- The association list represents a dictionary: its keys are distinct. -/
def alKeysNodup (l : List (Nat × EntryVal)) : Prop := (l.map Prod.fst).Nodup

instance (l : List (Nat × EntryVal)) : Decidable (alKeysNodup l) := by
  unfold alKeysNodup; infer_instance

theorem alLookup_isSome_iff (k : Nat) (l : List (Nat × EntryVal)) :
    (alLookup k l).isSome = true ↔ k ∈ l.map Prod.fst := by
  unfold alLookup
  rcases hf : l.find? (fun e => e.1 == k) with _ | e
  · rw [hf]
    simp only [Option.map_none', Option.isSome_none]
    constructor
    · intro h; simp at h
    · intro hk
      exfalso
      rw [List.mem_map] at hk
      obtain ⟨e, he, hke⟩ := hk
      have hne := List.find?_eq_none.1 hf e he
      rw [beq_iff_eq] at hne
      exact hne hke
  · rw [hf]
    simp only [Option.map_some', Option.isSome_some, true_iff]
    have h1 := List.find?_some hf
    rw [beq_iff_eq] at h1
    rw [List.mem_map]
    exact ⟨e, List.mem_of_find?_eq_some hf, h1⟩

theorem alInsert_keys_of_mem (k : Nat) (v : EntryVal) (l : List (Nat × EntryVal))
    (h : (alLookup k l).isSome = true) :
    (alInsert k v l).map Prod.fst = l.map Prod.fst := by
  unfold alInsert
  rw [if_pos h, List.map_map]
  apply List.map_congr_left
  intro e he
  by_cases hk : e.1 = k
  · simp [hk]
  · simp [hk]

theorem alInsert_keys_of_not_mem (k : Nat) (v : EntryVal) (l : List (Nat × EntryVal))
    (h : ¬ (alLookup k l).isSome = true) :
    (alInsert k v l).map Prod.fst = l.map Prod.fst ++ [k] := by
  unfold alInsert
  rw [if_neg h]
  simp

theorem alInsert_keysNodup (k : Nat) (v : EntryVal) (l : List (Nat × EntryVal))
    (h : alKeysNodup l) : alKeysNodup (alInsert k v l) := by
  unfold alKeysNodup at h ⊢
  by_cases hmem : (alLookup k l).isSome = true
  · rw [alInsert_keys_of_mem k v l hmem]; exact h
  · rw [alInsert_keys_of_not_mem k v l hmem]
    rw [List.nodup_append]
    refine ⟨h, by simp, ?_⟩
    intro x hx hx2
    rw [List.mem_singleton] at hx2
    subst hx2
    exact hmem ((alLookup_isSome_iff x l).2 hx)

/-- The dictionary condition of `_store_entry`'s publish test —
`len(chunks) == total and all(i in chunks for i in range(1, total+1))` —
holds exactly when the stored key set is `{1, …, total}`. -/
theorem publish_condition_iff (m : List (Nat × EntryVal)) (total : Nat)
    (hnd : alKeysNodup m) :
    (m.length = total ∧ ((List.range' 1 total).all fun i => (alLookup i m).isSome) = true)
      ↔ (m.map Prod.fst).toFinset = Finset.Icc 1 total := by
  have hcard : (m.map Prod.fst).toFinset.card = m.length := by
    rw [List.toFinset_card_of_nodup hnd, List.length_map]
  simp only [List.all_eq_true, List.mem_range']
  constructor
  · rintro ⟨hlen, hall⟩
    have hsub : Finset.Icc 1 total ⊆ (m.map Prod.fst).toFinset := by
      intro i hi
      rw [Finset.mem_Icc] at hi
      rw [List.mem_toFinset]
      exact (alLookup_isSome_iff i m).1 (hall i ⟨i - 1, by omega, by omega⟩)
    refine (Finset.eq_of_subset_of_card_le hsub ?_).symm
    rw [hcard, hlen, Nat.card_Icc]
    omega
  · intro hset
    constructor
    · have := hcard
      rw [hset, Nat.card_Icc] at this
      omega
    · intro i hi
      obtain ⟨j, hj, rfl⟩ := hi
      rw [alLookup_isSome_iff, ← List.mem_toFinset, hset, Finset.mem_Icc]
      omega

/-- Pointwise update of a string-keyed dictionary. -/
def fupdate {α : Type} (f : String → Option α) (k : String) (v : Option α) :
    String → Option α :=
  fun x => if x = k then v else f x

/-- The inbox state guarded by `self.inbox_lock` (yanotes.py lines 97-100). -/
structure Inbox where
  inbox_data : String → Option (List (Nat × EntryVal))
  inbox_complete : String → Option (List Nat)
  pending_requests : List (String × List Nat)

/-- The key `f"{rid}:{mtype}"` of `_store_entry`. -/
def entry_key (p : ParsedTitle) : String := p.request_id ++ ":" ++ p.msg_type

/-- Python `chunks[i][1]`: second component of a stored chunk entry. For a
`plain` entry (only ever stored under `DATA` keys, which never reach the
assembly branch) Python would index into raw bytes; the model returns `[]`
there. -/
def entry_snd : EntryVal → List Nat
  | .chunked _ d => d
  | .plain _ => []

/-- `b''.join(chunks[i][1] for i in range(1, total + 1))`. -/
def assemble (m : List (Nat × EntryVal)) (total : Nat) : List Nat :=
  ((List.range' 1 total).map fun i =>
    entry_snd ((alLookup i m).getD (EntryVal.plain []))).flatten

/-- The chunk dictionary for `p`'s key after `_store_entry` inserts the new
multi-chunk entry `(total, data)`. -/
def updated_chunks (s : Inbox) (p : ParsedTitle) (data : List Nat) :
    List (Nat × EntryVal) :=
  alInsert p.chunk (EntryVal.chunked p.total data) ((s.inbox_data (entry_key p)).getD [])

theorem fupdate_same {α : Type} (f : String → Option α) (k : String) (v : Option α) :
    fupdate f k v k = v := by
  simp [fupdate]

theorem fupdate_other {α : Type} (f : String → Option α) (k : String) (v : Option α)
    (x : String) (hx : x ≠ k) : fupdate f k v x = f x := by
  simp [fupdate, hx]

/-- `_store_entry` (yanotes.py lines 519-555). The local Python variables
`key`, `chunks` and `assembled` appear as `entry_key p`,
`updated_chunks s p data` and `assemble (updated_chunks s p data) p.total`
respectively. -/
def store_entry (s : Inbox) (p : ParsedTitle) (data : List Nat) : Inbox :=
  if p.msg_type = TYPE_DATA then
    { s with inbox_data :=
        (fupdate s.inbox_data (entry_key p)
          (some (alInsert p.chunk (EntryVal.plain data)
            ((s.inbox_data (entry_key p)).getD [])))) }
  else if p.total ≤ 1 then
    if p.msg_type = TYPE_RQST then
      { s with
          inbox_complete := (fupdate s.inbox_complete (entry_key p) (some data)),
          pending_requests := (s.pending_requests ++ [(p.request_id, data)]) }
    else
      { s with inbox_complete := (fupdate s.inbox_complete (entry_key p) (some data)) }
  else if (updated_chunks s p data).length = p.total
      ∧ ((List.range' 1 p.total).all fun i =>
          (alLookup i (updated_chunks s p data)).isSome) = true then
    if p.msg_type = TYPE_RQST then
      { s with
          inbox_data := (fupdate s.inbox_data (entry_key p) none),
          inbox_complete := (fupdate s.inbox_complete (entry_key p)
            (some (assemble (updated_chunks s p data) p.total))),
          pending_requests := (s.pending_requests
            ++ [(p.request_id, assemble (updated_chunks s p data) p.total)]) }
    else
      { s with
          inbox_data := (fupdate s.inbox_data (entry_key p) none),
          inbox_complete := (fupdate s.inbox_complete (entry_key p)
            (some (assemble (updated_chunks s p data) p.total))) }
  else
    { s with inbox_data :=
        (fupdate s.inbox_data (entry_key p) (some (updated_chunks s p data))) }

/-- C2 counterexample: the claim says a body is published exactly when
chunks with every index `1..total` have been stored, but an extra chunk
with index `0` (which `_parse_title` accepts) makes `len(chunks) == total`
fail forever: after storing chunks `0`, `1` and `2` of a `total = 2`
`RQST`, indices `1` and `2` are both present yet nothing is published. -/
theorem store_entry_reassembly_counterexample :
    (alLookup 1 (((store_entry (store_entry (store_entry ⟨fun _ => none, fun _ => none, []⟩
          ⟨'>', "RRRRRRRRRRRRRRRR", 0, 2, "RQST"⟩ [5])
          ⟨'>', "RRRRRRRRRRRRRRRR", 1, 2, "RQST"⟩ [6])
          ⟨'>', "RRRRRRRRRRRRRRRR", 2, 2, "RQST"⟩ [7]).inbox_data
            "RRRRRRRRRRRRRRRR:RQST").getD [])).isSome = true
    ∧ (alLookup 2 (((store_entry (store_entry (store_entry ⟨fun _ => none, fun _ => none, []⟩
          ⟨'>', "RRRRRRRRRRRRRRRR", 0, 2, "RQST"⟩ [5])
          ⟨'>', "RRRRRRRRRRRRRRRR", 1, 2, "RQST"⟩ [6])
          ⟨'>', "RRRRRRRRRRRRRRRR", 2, 2, "RQST"⟩ [7]).inbox_data
            "RRRRRRRRRRRRRRRR:RQST").getD [])).isSome = true
    ∧ (store_entry (store_entry (store_entry ⟨fun _ => none, fun _ => none, []⟩
          ⟨'>', "RRRRRRRRRRRRRRRR", 0, 2, "RQST"⟩ [5])
          ⟨'>', "RRRRRRRRRRRRRRRR", 1, 2, "RQST"⟩ [6])
          ⟨'>', "RRRRRRRRRRRRRRRR", 2, 2, "RQST"⟩ [7]).inbox_complete
            "RRRRRRRRRRRRRRRR:RQST" = none := by
  decide

/-- C2 (amended: "every index `1..total` has been stored" strengthened to
"the stored indices are exactly `{1, …, total}`", which is what
`len(chunks) == total` together with the `all` check tests). For a
multi-chunk `RQST`/`RESP` store, a body is published under
`complete[request_id:type]` exactly when the chunk indices present after
the insert form exactly `{1, …, total}`; the published body is the
concatenation of the chunk payloads in increasing index order `1..total`;
an `RQST` body is additionally pushed onto `pending_requests`; otherwise
`inbox_complete` and `pending_requests` are unchanged and the chunk map is
just extended. -/
theorem store_entry_reassembly (s : Inbox) (p : ParsedTitle) (data : List Nat)
    (hty : p.msg_type = TYPE_RQST ∨ p.msg_type = TYPE_RESP) (htot : 1 < p.total)
    (hnd : alKeysNodup ((s.inbox_data (entry_key p)).getD [])) :
    (((updated_chunks s p data).map Prod.fst).toFinset = Finset.Icc 1 p.total →
        (store_entry s p data).inbox_complete (entry_key p)
            = some (assemble (updated_chunks s p data) p.total)
          ∧ (store_entry s p data).inbox_data (entry_key p) = none
          ∧ (p.msg_type = TYPE_RQST →
              (store_entry s p data).pending_requests
                = s.pending_requests
                    ++ [(p.request_id, assemble (updated_chunks s p data) p.total)])
          ∧ (p.msg_type = TYPE_RESP →
              (store_entry s p data).pending_requests = s.pending_requests))
      ∧ (((updated_chunks s p data).map Prod.fst).toFinset ≠ Finset.Icc 1 p.total →
          (store_entry s p data).inbox_complete = s.inbox_complete
            ∧ (store_entry s p data).inbox_data (entry_key p)
                = some (updated_chunks s p data)
            ∧ (store_entry s p data).pending_requests = s.pending_requests)
      ∧ (∀ f : Nat → List Nat,
          (∀ i ∈ List.range' 1 p.total,
            ∃ t, alLookup i (updated_chunks s p data) = some (EntryVal.chunked t (f i))) →
          assemble (updated_chunks s p data) p.total
            = ((List.range' 1 p.total).map f).flatten) := by
  have hnd' : alKeysNodup (updated_chunks s p data) :=
    alInsert_keysNodup _ _ _ hnd
  have hnotdata : ¬ p.msg_type = TYPE_DATA := by
    rcases hty with h | h <;> rw [h] <;> decide
  have hnotle : ¬ p.total ≤ 1 := by omega
  have hiff := publish_condition_iff (updated_chunks s p data) p.total hnd'
  refine ⟨?_, ?_, ?_⟩
  · intro hset
    have hcond := hiff.2 hset
    rcases hty with hq | hr
    · simp only [store_entry]
      rw [if_neg hnotdata, if_neg hnotle, if_pos hcond, if_pos hq]
      exact ⟨fupdate_same _ _ _, fupdate_same _ _ _, fun _ => rfl,
        fun hcresp => absurd (hq.symm.trans hcresp) (by decide)⟩
    · have hnq : ¬ p.msg_type = TYPE_RQST := by rw [hr]; decide
      simp only [store_entry]
      rw [if_neg hnotdata, if_neg hnotle, if_pos hcond, if_neg hnq]
      exact ⟨fupdate_same _ _ _, fupdate_same _ _ _,
        fun hcq => absurd (hr.symm.trans hcq) (by decide), fun _ => rfl⟩
  · intro hset
    have hcond : ¬ ((updated_chunks s p data).length = p.total
        ∧ ((List.range' 1 p.total).all fun i =>
            (alLookup i (updated_chunks s p data)).isSome) = true) := by
      intro hc
      exact hset (hiff.1 hc)
    simp only [store_entry]
    rw [if_neg hnotdata, if_neg hnotle, if_neg hcond]
    exact ⟨rfl, fupdate_same _ _ _, rfl⟩
  · intro f hf
    unfold assemble
    congr 1
    apply List.map_congr_left
    intro i hi
    obtain ⟨t, ht⟩ := hf i hi
    rw [ht]
    rfl

/-- Instantiation of `store_entry_reassembly`: storing chunk `2/2` of an
`RQST` whose chunk `1/2` is already present publishes the assembled body. -/
theorem store_entry_reassembly_witness :
    (store_entry (store_entry ⟨fun _ => none, fun _ => none, []⟩
        ⟨'>', "WWWWWWWWWWWWWWWW", 1, 2, "RQST"⟩ [6])
        ⟨'>', "WWWWWWWWWWWWWWWW", 2, 2, "RQST"⟩ [7]).inbox_complete
          (entry_key ⟨'>', "WWWWWWWWWWWWWWWW", 2, 2, "RQST"⟩)
      = some (assemble (updated_chunks (store_entry ⟨fun _ => none, fun _ => none, []⟩
          ⟨'>', "WWWWWWWWWWWWWWWW", 1, 2, "RQST"⟩ [6])
          ⟨'>', "WWWWWWWWWWWWWWWW", 2, 2, "RQST"⟩ [7]) 2) :=
  ((store_entry_reassembly (store_entry ⟨fun _ => none, fun _ => none, []⟩
      ⟨'>', "WWWWWWWWWWWWWWWW", 1, 2, "RQST"⟩ [6])
      ⟨'>', "WWWWWWWWWWWWWWWW", 2, 2, "RQST"⟩ [7]
      (Or.inl rfl) (by decide) (by decide)).1 (by decide)).1

/-! ### Storage paths and the public API (`_parse_storage_path`
lines 620-628, `put_chunk` lines 566-567, `put` lines 587-592,
`get` lines 594-599, `head` lines 601-606) -/

/-- `str.split` on a one-character separator, as used by
`path.split('/')`. -/
def split_on1 (sep : Char) : List Char → List (List Char)
  | [] => [[]]
  | c :: rest =>
    if c = sep then [] :: split_on1 sep rest
    else match split_on1 sep rest with
      | [] => [[c]]
      | h :: t => (c :: h) :: t

/-- `str.split` on a two-character separator, as used by
`filename.split('_c')` and `filename.split('_s')`: a left-to-right scan
over non-overlapping occurrences. -/
def split_on2 (a b : Char) : List Char → List (List Char)
  | [] => [[]]
  | [c] => [[c]]
  | c :: d :: rest =>
    if c = a ∧ d = b then [] :: split_on2 a b rest
    else match split_on2 a b (d :: rest) with
      | [] => [[c]]
      | h :: t => (c :: h) :: t

/-- `filename.replace('.json', '')`: a left-to-right scan removing every
non-overlapping occurrence of `.json`. -/
def strip_json : List Char → List Char
  | '.' :: 'j' :: 's' :: 'o' :: 'n' :: rest => strip_json rest
  | c :: rest => c :: strip_json rest
  | [] => []

/-- Python `int()` on a string: its value on a non-empty digit run, failure
otherwise (where Python raises `ValueError`). -/
def int_of_chars (l : List Char) : Option Nat :=
  if l ≠ [] ∧ ∀ c ∈ l, is_digit c then some (digits_to_nat l) else none

/-- `_parse_storage_path` (yanotes.py lines 620-628). -/
def parse_storage_path (path : String) : String × Char × Option Nat :=
  let filename := strip_json (((split_on1 '/' path.toList).getLast?).getD [])
  let pc := split_on2 '_' 'c' filename
  if pc.length > 1 then
    (String.mk ((pc.head?).getD []), 'D', int_of_chars (((pc.drop 1).head?).getD []))
  else
    let ps := split_on2 '_' 's' filename
    if ps.length > 1 then
      (String.mk ((ps.head?).getD []), 'D', int_of_chars (((ps.drop 1).head?).getD []))
    else (String.mk filename, 'H', none)

/-- The `inbox_complete` key used by `get` and `head`:
`rid:RESP` for the client role, `rid:RQST` otherwise. -/
def complete_key (role : String) (path : String) : String :=
  (parse_storage_path path).1 ++ ":" ++ (if role = "client" then TYPE_RESP else TYPE_RQST)

/-- `get` (yanotes.py lines 594-599): `inbox_complete.pop(key, None)` under
the inbox lock — returns the complete body and removes the entry. -/
def get (role : String) (s : Inbox) (path : String) : Option (List Nat) × Inbox :=
  match s.inbox_complete (complete_key role path) with
  | some b => (some b,
      { s with inbox_complete := fupdate s.inbox_complete (complete_key role path) none })
  | none => (none, s)

/-- `head` (yanotes.py lines 601-606): `key in self.inbox_complete`, a pure
read under the inbox lock. -/
def head (role : String) (s : Inbox) (path : String) : Bool :=
  (s.inbox_complete (complete_key role path)).isSome

theorem get_eq_some (role : String) (s : Inbox) (path : String) (c : List Nat)
    (h : s.inbox_complete (complete_key role path) = some c) :
    get role s path = (some c,
      { s with inbox_complete := fupdate s.inbox_complete (complete_key role path) none }) := by
  unfold get
  rw [h]

theorem get_eq_none (role : String) (s : Inbox) (path : String)
    (h : s.inbox_complete (complete_key role path) = none) :
    get role s path = (none, s) := by
  unfold get
  rw [h]

/-- C10. One-shot receive is destructive: when `get` returns a complete
message the entry is removed from `inbox_complete`, so an immediately
following `get` for the same request returns `None` and `head` returns
`False`; every other `inbox_complete` entry is left unchanged (`head`,
being a pure read, changes nothing). -/
theorem get_destructive (role : String) (s : Inbox) (path : String) (b : List Nat)
    (h : (get role s path).1 = some b) :
    (get role (get role s path).2 path).1 = none
      ∧ head role (get role s path).2 path = false
      ∧ (∀ k, k ≠ complete_key role path →
          (get role s path).2.inbox_complete k = s.inbox_complete k) := by
  rcases hsk : s.inbox_complete (complete_key role path) with _ | c
  · rw [get_eq_none role s path hsk] at h
    simp at h
  · rw [get_eq_some role s path c hsk]
    refine ⟨?_, ?_, ?_⟩
    · rw [get_eq_none role _ path (fupdate_same _ _ _)]
    · simp [head, fupdate_same]
    · intro k hk
      exact fupdate_other _ _ _ k hk

/-- Instantiation of `get_destructive`: after draining the only complete
entry, a second `get` is empty. -/
theorem get_destructive_witness :
    (get "client"
      (get "client"
        ⟨fun _ => none,
          fun k => if k = "1700000000000abc:RESP" then some [7] else none, []⟩
        "inbox/1700000000000abc.json").2
      "inbox/1700000000000abc.json").1 = none :=
  (get_destructive "client"
    ⟨fun _ => none, fun k => if k = "1700000000000abc:RESP" then some [7] else none, []⟩
    "inbox/1700000000000abc.json" [7] (by decide)).1

/-! ### Producing units (`_queue_entry`, `put_chunk`, `put`) -/

/-- The argument tuple a public-API call hands to `_queue_entry`. -/
structure QueuedUnit where
  request_id : String
  chunk : Nat
  total : Nat
  msg_type : String
  data : List Nat
deriving DecidableEq

/-- `_queue_entry` (yanotes.py lines 559-564): build the title, encrypt
then base65536-encode the payload, and append `(title, encoded)` to
`batch_queue`. No size check of any kind is performed. -/
def queue_entry (ctx : CodecCtx) (send_direction : Char) (nonce : List Nat)
    (batch_queue : List (List Char × List Nat)) (u : QueuedUnit) :
    List (List Char × List Nat) :=
  batch_queue ++ [(make_title send_direction u.request_id u.chunk u.total u.msg_type,
    base65536_encode (encrypt_data ctx nonce u.data))]

/-- The unit `put_chunk` (yanotes.py lines 566-567) hands to
`_queue_entry`: `(request_id, chunk_num, 0, TYPE_DATA, data)`. -/
def put_chunk_unit (request_id : String) (chunk_num : Nat) (data : List Nat) : QueuedUnit :=
  ⟨request_id, chunk_num, 0, TYPE_DATA, data⟩

/-- The unit `put` (yanotes.py lines 587-592) hands to `_queue_entry`:
`(rid, 1, 1, mtype, data)` with `mtype = RESP` for the server role and
`RQST` otherwise. -/
def put_unit (role : String) (path : String) (data : List Nat) : QueuedUnit :=
  ⟨(parse_storage_path path).1, 1, 1,
    if role = "server" then TYPE_RESP else TYPE_RQST, data⟩

/-- `put_chunk` (yanotes.py lines 566-567) acting on the batch queue. -/
def put_chunk (ctx : CodecCtx) (send_direction : Char) (nonce : List Nat)
    (batch_queue : List (List Char × List Nat)) (request_id : String)
    (chunk_num : Nat) (data : List Nat) : List (List Char × List Nat) :=
  queue_entry ctx send_direction nonce batch_queue (put_chunk_unit request_id chunk_num data)

/-- `put` (yanotes.py lines 587-592) acting on the batch queue. -/
def put (ctx : CodecCtx) (role : String) (send_direction : Char) (nonce : List Nat)
    (batch_queue : List (List Char × List Nat)) (path : String) (data : List Nat) :
    List (List Char × List Nat) :=
  queue_entry ctx send_direction nonce batch_queue (put_unit role path data)

/-- C9. Type/total invariant of produced units: `put_chunk` emits a unit of
type `DATA` with `total = 0`; `put` (send_message) emits exactly one unit
with `chunk = 1`, `total = 1`, of type `RQST` for the client role and
`RESP` for the server role; hence every produced unit satisfies
`total = 0 → type = DATA` and `total ≥ 1 → type ∈ {RQST, RESP}`. -/
theorem produced_unit_invariant (role request_id path : String) (chunk_num : Nat)
    (data msg : List Nat) :
    (put_chunk_unit request_id chunk_num data).total = 0
      ∧ (put_chunk_unit request_id chunk_num data).msg_type = TYPE_DATA
      ∧ (put_unit role path msg).chunk = 1
      ∧ (put_unit role path msg).total = 1
      ∧ (role = "client" → (put_unit role path msg).msg_type = TYPE_RQST)
      ∧ (role = "server" → (put_unit role path msg).msg_type = TYPE_RESP)
      ∧ (∀ u ∈ [put_chunk_unit request_id chunk_num data, put_unit role path msg],
          (u.total = 0 → u.msg_type = TYPE_DATA)
            ∧ (1 ≤ u.total → u.msg_type = TYPE_RQST ∨ u.msg_type = TYPE_RESP)) := by
  refine ⟨rfl, rfl, rfl, rfl, ?_, ?_, ?_⟩
  · intro hc
    have : ¬ role = "server" := by rw [hc]; decide
    simp [put_unit, this]
  · intro hs
    simp [put_unit, hs]
  · intro u hu
    rcases List.mem_pair.1 hu with rfl | rfl
    · exact ⟨fun _ => rfl, fun h => by simp [put_chunk_unit] at h⟩
    · refine ⟨fun h => by simp [put_unit] at h, fun _ => ?_⟩
      unfold put_unit
      by_cases hs : role = "server"
      · simp [hs]
      · simp [hs]

/-- Instantiation of `produced_unit_invariant` for the client role. -/
theorem produced_unit_invariant_witness :
    (put_unit "client" "outbox/1700000000000abc.json" [1]).msg_type = TYPE_RQST :=
  (produced_unit_invariant "client" "1700000000000abc" "outbox/1700000000000abc.json"
    3 [2] [1]).2.2.2.2.1 rfl

/-- C5 counterexample: the claim says `send_message` refuses to enqueue a
unit whose encoded size alone exceeds `MAX_SNIPPET_CHARS`, but `put`
performs no size check: a 4,000,002-byte payload encodes to 2,000,001
characters (> 2,000,000) and is enqueued like any other unit. -/
theorem put_size_counterexample :
    MAX_SNIPPET_CHARS <
      (base65536_encode (encrypt_data ⟨false, fun _ _ => 0, fun _ _ => []⟩ []
        (List.replicate 4000002 0))).length
    ∧ put ⟨false, fun _ _ => 0, fun _ _ => []⟩ "client" '>' [] []
        "outbox/1700000000000abc.json" (List.replicate 4000002 0)
      = [(make_title '>' "1700000000000abc" 1 1 TYPE_RQST,
          base65536_encode (encrypt_data ⟨false, fun _ _ => 0, fun _ _ => []⟩ []
            (List.replicate 4000002 0)))] := by
  constructor
  · have henc : encrypt_data ⟨false, fun _ _ => 0, fun _ _ => []⟩ [] (List.replicate 4000002 0)
        = List.replicate 4000002 0 := by
      simp only [encrypt_data, Bool.false_eq_true, if_false]
    rw [henc, base65536_encode_length, List.length_replicate]
    norm_num [MAX_SNIPPET_CHARS]
  · unfold put queue_entry put_unit
    rw [List.nil_append]
    have hrid : (parse_storage_path "outbox/1700000000000abc.json").1
        = "1700000000000abc" := by decide
    have hrole : ("client" = "server") = False := by simp
    simp only [hrid, hrole, if_false]

/-- C5 (amended: there is no size check — `put` enqueues every one-shot
message unconditionally, oversized or not, and never fails). -/
theorem put_no_size_check (ctx : CodecCtx) (role : String) (send_direction : Char)
    (nonce : List Nat) (batch_queue : List (List Char × List Nat)) (path : String)
    (data : List Nat) :
    put ctx role send_direction nonce batch_queue path data
      = batch_queue
          ++ [(make_title send_direction (parse_storage_path path).1 1 1
                (if role = "server" then TYPE_RESP else TYPE_RQST),
              base65536_encode (encrypt_data ctx nonce data))] := rfl

/-! ### Sender batching (`_sender_loop` lines 289-335, `_fire_send` /
`do_send` lines 337-378) -/

/-- `item_chars` (yanotes.py line 304): the accounted size of one queued
item, `len(title) + len(encoded) + 2` for the tab and newline. An item is
a `(title, encoded)` pair; the encoded payload is counted in code points,
which is what Python's `len` returns on the base65536 string. -/
def item_chars (it : List Char × List Nat) : Nat := it.1.length + it.2.length + 2

/-- The snippet text `'\n'.join(f"{t}\t{d}" for t, d in items)` built by
`do_send` (line 365), as a list of code points (`9` the tab, `10` the
newline). -/
def batch_text : List (List Char × List Nat) → List Nat
  | [] => []
  | [it] => it.1.map Char.toNat ++ 9 :: it.2
  | it :: rest => (it.1.map Char.toNat ++ 9 :: it.2) ++ 10 :: batch_text rest

theorem batch_text_length (b : List (List Char × List Nat)) (hb : b ≠ []) :
    (batch_text b).length + 1 = (b.map item_chars).sum := by
  induction b with
  | nil => exact absurd rfl hb
  | cons it rest ih =>
    cases rest with
    | nil => simp [batch_text, item_chars]; omega
    | cons it2 rest2 =>
      have ihr := ih (by simp)
      have hit : item_chars it = it.1.length + it.2.length + 2 := rfl
      simp only [batch_text, List.map_cons, List.sum_cons, List.length_append,
        List.length_cons, List.length_map] at ihr ⊢
      omega

/-- The sender loop's local accumulation state (`batch`, `batch_chars`,
lines 294-295). -/
structure SenderState where
  batch : List (List Char × List Nat)
  batch_chars : Nat
deriving DecidableEq

/-- The inner drain loop of `_sender_loop` (lines 300-322): pull each item
off the queue; if the batch is non-empty and would overflow, fire the
current batch and start afresh; then append the item. Returns the final
state and the fired batches (with their accounted sizes) in order. -/
def drain_queue (st : SenderState) :
    List (List Char × List Nat) →
      SenderState × List (List (List Char × List Nat) × Nat)
  | [] => (st, [])
  | it :: rest =>
    if st.batch ≠ [] ∧ st.batch_chars + item_chars it > MAX_SNIPPET_CHARS then
      ((drain_queue ⟨[it], item_chars it⟩ rest).1,
        (st.batch, st.batch_chars) :: (drain_queue ⟨[it], item_chars it⟩ rest).2)
    else
      drain_queue ⟨st.batch ++ [it], st.batch_chars + item_chars it⟩ rest

/-- One pass of the outer sender loop (lines 298-332): drain the queue,
then fire the batch if it is non-empty and the `BATCH_TIMEOUT` has
elapsed. -/
def sender_cycle (st : SenderState) (queue : List (List Char × List Nat))
    (timeout_fire : Bool) :
    SenderState × List (List (List Char × List Nat) × Nat) :=
  if (drain_queue st queue).1.batch ≠ [] ∧ timeout_fire then
    (⟨[], 0⟩, (drain_queue st queue).2
      ++ [((drain_queue st queue).1.batch, (drain_queue st queue).1.batch_chars)])
  else drain_queue st queue

/-- Repeated sender-loop passes, each with the items drained in that pass
and whether the timeout fired. -/
def sender_run (st : SenderState) :
    List (List (List Char × List Nat) × Bool) →
      SenderState × List (List (List Char × List Nat) × Nat)
  | [] => (st, [])
  | (q, tf) :: rest =>
    ((sender_run (sender_cycle st q tf).1 rest).1,
      (sender_cycle st q tf).2 ++ (sender_run (sender_cycle st q tf).1 rest).2)

theorem drain_queue_spec (queue : List (List Char × List Nat)) (st : SenderState)
    (hchars : st.batch_chars = (st.batch.map item_chars).sum)
    (hle : st.batch_chars ≤ MAX_SNIPPET_CHARS)
    (hsmall : ∀ it ∈ queue, item_chars it ≤ MAX_SNIPPET_CHARS) :
    ((drain_queue st queue).1.batch_chars
        = ((drain_queue st queue).1.batch.map item_chars).sum
      ∧ (drain_queue st queue).1.batch_chars ≤ MAX_SNIPPET_CHARS)
    ∧ ∀ d ∈ (drain_queue st queue).2,
        d.1 ≠ [] ∧ d.2 = (d.1.map item_chars).sum ∧ d.2 ≤ MAX_SNIPPET_CHARS := by
  induction queue generalizing st with
  | nil => exact ⟨⟨hchars, hle⟩, by simp [drain_queue]⟩
  | cons it rest ih =>
    have hsit : item_chars it ≤ MAX_SNIPPET_CHARS := hsmall it (by simp)
    have hsrest : ∀ x ∈ rest, item_chars x ≤ MAX_SNIPPET_CHARS :=
      fun x hx => hsmall x (by simp [hx])
    unfold drain_queue
    by_cases hov : st.batch ≠ [] ∧ st.batch_chars + item_chars it > MAX_SNIPPET_CHARS
    · rw [if_pos hov]
      have ihr := ih ⟨[it], item_chars it⟩ (by simp) hsit hsrest
      refine ⟨ihr.1, ?_⟩
      intro d hd
      rcases List.mem_cons.1 hd with rfl | hd2
      · exact ⟨hov.1, hchars, hle⟩
      · exact ihr.2 d hd2
    · rw [if_neg hov]
      have hnew : st.batch_chars + item_chars it ≤ MAX_SNIPPET_CHARS := by
        by_cases hbe : st.batch = []
        · have : st.batch_chars = 0 := by rw [hchars, hbe]; simp
          omega
        · have := (not_and_or.1 hov).resolve_left (by simpa using hbe)
          omega
      exact ih ⟨st.batch ++ [it], st.batch_chars + item_chars it⟩
        (by simp [hchars, item_chars]) hnew hsrest

theorem sender_cycle_spec (st : SenderState) (queue : List (List Char × List Nat))
    (tf : Bool)
    (hchars : st.batch_chars = (st.batch.map item_chars).sum)
    (hle : st.batch_chars ≤ MAX_SNIPPET_CHARS)
    (hsmall : ∀ it ∈ queue, item_chars it ≤ MAX_SNIPPET_CHARS) :
    ((sender_cycle st queue tf).1.batch_chars
        = ((sender_cycle st queue tf).1.batch.map item_chars).sum
      ∧ (sender_cycle st queue tf).1.batch_chars ≤ MAX_SNIPPET_CHARS)
    ∧ ∀ d ∈ (sender_cycle st queue tf).2,
        d.1 ≠ [] ∧ d.2 = (d.1.map item_chars).sum ∧ d.2 ≤ MAX_SNIPPET_CHARS := by
  have hd := drain_queue_spec queue st hchars hle hsmall
  unfold sender_cycle
  by_cases hc : (drain_queue st queue).1.batch ≠ [] ∧ tf = true
  · rw [if_pos hc]
    refine ⟨by simp, ?_⟩
    intro d hd2
    rcases List.mem_append.1 hd2 with hd3 | hd3
    · exact hd.2 d hd3
    · rw [List.mem_singleton] at hd3
      subst hd3
      exact ⟨hc.1, hd.1.1, hd.1.2⟩
  · rw [if_neg hc]
    exact hd

theorem drain_queue_single (it : List Char × List Nat) :
    drain_queue ⟨[], 0⟩ [it] = (⟨[it], item_chars it⟩, []) := by
  unfold drain_queue
  rw [if_neg (by simp)]
  unfold drain_queue
  simp

theorem sender_run_single (it : List Char × List Nat) :
    sender_run ⟨[], 0⟩ [([it], true)] = (⟨[], 0⟩, [([it], item_chars it)]) := by
  unfold sender_run sender_cycle
  rw [drain_queue_single it]
  simp [sender_run]

/-- C4 counterexample: the claim bounds every dispatched snippet by
`MAX_SNIPPET_CHARS`, but a single queued item whose accounted size already
exceeds the budget (possible because `put` never checks sizes, and the
overflow rule only fires against a non-empty batch) is dispatched on the
next timeout as a snippet of 2,000,035 characters. -/
theorem sender_snippet_budget_counterexample :
    (sender_run ⟨[], 0⟩
        [([(List.replicate 34 'x', List.replicate 2000000 65)], true)]).2
      = [([(List.replicate 34 'x', List.replicate 2000000 65)], 2000036)]
    ∧ MAX_SNIPPET_CHARS
        < (batch_text [(List.replicate 34 'x', List.replicate 2000000 65)]).length := by
  have hic : ∀ (n m : Nat) (c : Char) (b : Nat),
      item_chars (List.replicate n c, List.replicate m b) = n + m + 2 := by
    intro n m c b
    unfold item_chars
    rw [List.length_replicate, List.length_replicate]
  have hnum : (34 : Nat) + 2000000 + 2 = 2000036 := by norm_num
  constructor
  · rw [sender_run_single, hic, hnum]
  · have hb := batch_text_length
      [(List.replicate 34 'x', List.replicate 2000000 65)]
      (List.cons_ne_nil _ _)
    rw [List.map_cons, List.map_nil, List.sum_cons, List.sum_nil, hic, hnum] at hb
    unfold MAX_SNIPPET_CHARS
    omega

/-- C4 (amended: under the precondition that every queued item's accounted
size `len(title) + len(encoded) + 2` is at most `MAX_SNIPPET_CHARS` — not
guaranteed by `put`, see C5). Starting from the empty batch, across any
sequence of sender-loop passes every dispatched batch is non-empty, its
accounted size is the sum of its items' accounted sizes and is at most
`MAX_SNIPPET_CHARS`, and the snippet text actually dispatched is one
character shorter than the accounted size, hence strictly below the
budget. -/
theorem sender_snippet_budget (cycles : List (List (List Char × List Nat) × Bool))
    (hsmall : ∀ cyc ∈ cycles, ∀ it ∈ cyc.1, item_chars it ≤ MAX_SNIPPET_CHARS) :
    ∀ d ∈ (sender_run ⟨[], 0⟩ cycles).2,
      d.1 ≠ [] ∧ d.2 = (d.1.map item_chars).sum ∧ d.2 ≤ MAX_SNIPPET_CHARS
        ∧ (batch_text d.1).length + 1 = d.2
        ∧ (batch_text d.1).length < MAX_SNIPPET_CHARS := by
  suffices hgen : ∀ (cs : List (List (List Char × List Nat) × Bool)) (st : SenderState),
      st.batch_chars = (st.batch.map item_chars).sum →
      st.batch_chars ≤ MAX_SNIPPET_CHARS →
      (∀ cyc ∈ cs, ∀ it ∈ cyc.1, item_chars it ≤ MAX_SNIPPET_CHARS) →
      ∀ d ∈ (sender_run st cs).2,
        d.1 ≠ [] ∧ d.2 = (d.1.map item_chars).sum ∧ d.2 ≤ MAX_SNIPPET_CHARS by
    intro d hd
    have h := hgen cycles ⟨[], 0⟩ (by simp) (by simp [MAX_SNIPPET_CHARS]) hsmall d hd
    have hlen := batch_text_length d.1 h.1
    refine ⟨h.1, h.2.1, h.2.2, ?_, ?_⟩
    · rw [hlen, h.2.1]
    · omega
  intro cs
  induction cs with
  | nil => intro st _ _ _ d hd; simp [sender_run] at hd
  | cons cyc rest ih =>
    intro st hchars hle hsm d hd
    obtain ⟨q, tf⟩ := cyc
    have hcyc := sender_cycle_spec st q tf hchars hle
      (fun it hit => hsm (q, tf) (by simp) it hit)
    unfold sender_run at hd
    rcases List.mem_append.1 hd with hd2 | hd2
    · exact hcyc.2 d hd2
    · exact ih (sender_cycle st q tf).1 hcyc.1.1 hcyc.1.2
        (fun c hc it hit => hsm c (by simp [hc]) it hit) d hd2

/-- Instantiation of `sender_snippet_budget` on a one-item run: the
dispatched snippet observes the budget. -/
theorem sender_snippet_budget_witness :
    (batch_text [(['a'], [65, 66])]).length < MAX_SNIPPET_CHARS :=
  (sender_snippet_budget [([(['a'], [65, 66])], true)]
    (by
      intro cyc hcyc it hit
      rw [List.mem_singleton] at hcyc
      subst hcyc
      rw [List.mem_singleton] at hit
      subst hit
      simp [item_chars, MAX_SNIPPET_CHARS])
    ([(['a'], [65, 66])], item_chars (['a'], [65, 66]))
    (by rw [sender_run_single]; simp)).2.2.2.2

/-! ### PATCH retry policy (`_patch_note` lines 234-272, `do_send`
lines 362-377) -/

/-- The observable outcome of one HTTP PATCH attempt: a status code, or a
network/timeout exception. -/
inductive PatchOutcome
  | status (code : Nat)
  | netError
deriving DecidableEq

/-- Success test of `_patch_note` (line 246):
`r.status_code in (200, 201)`. -/
def patch_success : PatchOutcome → Prop
  | .status c => c = 200 ∨ c = 201
  | .netError => False

/-- Retry class of `_patch_note`: `r.status_code in (500, 502, 503, 504)`
(line 250) or any exception (line 262). -/
def patch_retryable : PatchOutcome → Prop
  | .status c => c = 500 ∨ c = 502 ∨ c = 503 ∨ c = 504
  | .netError => True

/-- One attempt of `_patch_note` (yanotes.py lines 237-271), given the
result `next` of the remaining attempts: success on 200/201; a retryable
outcome with `attempt < max_retries = 3` sleeps `0.5 * (2 ** attempt)`
seconds (plus jitter, omitted here) and continues with `next`; anything
else returns `False`. -/
def patch_note_step (outcomes : Nat -> PatchOutcome) (attempt : Nat)
    (next : Bool × List ℚ) : Bool × List ℚ :=
  match outcomes attempt with
  | .status c =>
    if c = 200 ∨ c = 201 then (true, [])
    else if (c = 500 ∨ c = 502 ∨ c = 503 ∨ c = 504) ∧ attempt < 3 then
      (next.1, (1 / 2 * 2 ^ attempt : ℚ) :: next.2)
    else (false, [])
  | .netError =>
    if attempt < 3 then (next.1, (1 / 2 * 2 ^ attempt : ℚ) :: next.2)
    else (false, [])

/-- The attempt loop of `_patch_note`: `for attempt in
range(max_retries + 1)`, falling through to `return False`. `outcomes i`
is the outcome of attempt `i`; the result pairs the returned Boolean with
the base backoff delays slept, in seconds. -/
def patch_note_go (outcomes : Nat -> PatchOutcome) : List Nat -> Bool × List ℚ
  | [] => (false, [])
  | attempt :: rest => patch_note_step outcomes attempt (patch_note_go outcomes rest)

/-- `_patch_note` (yanotes.py lines 234-272) with `max_retries = 3`. -/
def patch_note (outcomes : Nat -> PatchOutcome) : Bool × List ℚ :=
  patch_note_go outcomes [0, 1, 2, 3]

/-- `do_send` (yanotes.py lines 362-377) after its PATCH returned `ok`: on
failure the acquired note id is released back to the free pool; the batch
queue is untouched in both cases, so the items of a failed batch are
dropped. -/
def do_send_after (pool : PoolState) (nid : String) (ok : Bool)
    (queue : List (List Char × List Nat)) :
    PoolState × List (List Char × List Nat) :=
  if ok then (pool, queue) else (release_note pool nid, queue)

theorem patch_note_step_fst (o : Nat -> PatchOutcome) (a : Nat) (ha : a < 3)
    (next : Bool × List ℚ) :
    (patch_note_step o a next).1 = true ↔
      patch_success (o a) ∨ (patch_retryable (o a) ∧ next.1 = true) := by
  rcases ho : o a with c | _
  · simp only [patch_note_step, ho, patch_success, patch_retryable]
    split_ifs with h1 h2
    · simp [h1]
    · constructor
      · intro h
        exact Or.inr ⟨h2.1, h⟩
      · rintro (h | ⟨-, h⟩)
        · exact absurd h h1
        · exact h
    · have hnr : ¬ (c = 500 ∨ c = 502 ∨ c = 503 ∨ c = 504) := fun hcr => h2 ⟨hcr, ha⟩
      constructor
      · intro h
        simp at h
      · rintro (h | ⟨hr, -⟩)
        · exact absurd h h1
        · exact absurd hr hnr
  · simp only [patch_note_step, ho, patch_success, patch_retryable, if_pos ha]
    simp

theorem patch_note_step_fst_last (o : Nat -> PatchOutcome) (next : Bool × List ℚ) :
    (patch_note_step o 3 next).1 = true ↔ patch_success (o 3) := by
  rcases ho : o 3 with c | _
  · simp only [patch_note_step, ho, patch_success]
    split_ifs with h1 h2
    · simp [h1]
    · omega
    · constructor
      · intro h
        simp at h
      · intro h
        exact absurd h h1
  · simp [patch_note_step, ho, patch_success]

theorem patch_note_success_iff (o : Nat -> PatchOutcome) :
    (patch_note o).1 = true ↔
      ∃ i, i ≤ 3 ∧ patch_success (o i) ∧ ∀ j < i, patch_retryable (o j) := by
  have e : patch_note o
      = patch_note_step o 0 (patch_note_step o 1 (patch_note_step o 2
          (patch_note_step o 3 (patch_note_go o [])))) := rfl
  rw [e, patch_note_step_fst o 0 (by norm_num), patch_note_step_fst o 1 (by norm_num),
    patch_note_step_fst o 2 (by norm_num), patch_note_step_fst_last]
  constructor
  · rintro (h | ⟨r0, (h | ⟨r1, (h | ⟨r2, h⟩)⟩)⟩)
    · exact ⟨0, by omega, h, by omega⟩
    · refine ⟨1, by omega, h, ?_⟩
      intro j hj
      interval_cases j
      exact r0
    · refine ⟨2, by omega, h, ?_⟩
      intro j hj
      interval_cases j
      exacts [r0, r1]
    · refine ⟨3, by omega, h, ?_⟩
      intro j hj
      interval_cases j
      exacts [r0, r1, r2]
  · rintro ⟨i, hi, hs, hr⟩
    interval_cases i
    · exact Or.inl hs
    · exact Or.inr ⟨hr 0 (by omega), Or.inl hs⟩
    · exact Or.inr ⟨hr 0 (by omega), Or.inr ⟨hr 1 (by omega), Or.inl hs⟩⟩
    · exact Or.inr ⟨hr 0 (by omega), Or.inr ⟨hr 1 (by omega),
        Or.inr ⟨hr 2 (by omega), hs⟩⟩⟩

theorem patch_note_step_delays (o : Nat -> PatchOutcome) (a : Nat)
    (next : Bool × List ℚ) :
    (patch_note_step o a next).2 = []
      ∨ (patch_note_step o a next).2 = (1 / 2 * 2 ^ a : ℚ) :: next.2 := by
  rcases ho : o a with c | _ <;> simp only [patch_note_step, ho] <;> split_ifs <;> simp

theorem patch_note_step_last_delays (o : Nat -> PatchOutcome)
    (next : Bool × List ℚ) : (patch_note_step o 3 next).2 = [] := by
  rcases ho : o 3 with c | _ <;> simp only [patch_note_step, ho] <;> split_ifs <;>
    first
    | rfl
    | omega

theorem patch_note_delays (o : Nat -> PatchOutcome) :
    (patch_note o).2 = [] ∨ (patch_note o).2 = [1 / 2]
      ∨ (patch_note o).2 = [1 / 2, 1] ∨ (patch_note o).2 = [1 / 2, 1, 2] := by
  have e : patch_note o
      = patch_note_step o 0 (patch_note_step o 1 (patch_note_step o 2
          (patch_note_step o 3 (patch_note_go o [])))) := rfl
  rw [e]
  rcases patch_note_step_delays o 0 (patch_note_step o 1 (patch_note_step o 2
      (patch_note_step o 3 (patch_note_go o [])))) with h0 | h0
  · exact Or.inl h0
  rcases patch_note_step_delays o 1 (patch_note_step o 2
      (patch_note_step o 3 (patch_note_go o []))) with h1 | h1
  · right; left
    rw [h0, h1]
    norm_num
  rcases patch_note_step_delays o 2 (patch_note_step o 3 (patch_note_go o []))
      with h2 | h2
  · right; right; left
    rw [h0, h1, h2]
    norm_num
  · right; right; right
    rw [h0, h1, h2, patch_note_step_last_delays]
    norm_num

/-- C6 counterexample: the claim says HTTP 5xx responses are retried, but
`_patch_note` only retries `{500, 502, 503, 504}`: on a 501 (a 5xx status)
followed by 200s it returns failure immediately, with no backoff sleep,
even though a retry would have succeeded. -/
theorem patch_note_retry_policy_counterexample :
    (500 ≤ 501 ∧ 501 < 600)
    ∧ (fun i => if i = 0 then PatchOutcome.status 501 else PatchOutcome.status 200) 1
        = PatchOutcome.status 200
    ∧ patch_note (fun i => if i = 0 then PatchOutcome.status 501
        else PatchOutcome.status 200) = (false, []) :=
  ⟨⟨by norm_num, by norm_num⟩, rfl, rfl⟩

/-- C6 (amended: the retried statuses are exactly `{500, 502, 503, 504}`,
not all of 5xx). `_patch_note` makes up to 3 extra attempts with base
backoff delays 0.5 s, 1.0 s, 2.0 s (plus jitter) on retryable outcomes
(status in `{500, 502, 503, 504}` or a network error); it returns success
exactly when some attempt `i ≤ 3`, preceded only by retryable outcomes,
returns 200 or 201; a 4xx response fails immediately with no retry; and on
a failed batch send `do_send` releases the acquired note id back to the
free pool while the batch items are dropped (never re-enqueued). -/
theorem patch_note_retry_policy (o : Nat → PatchOutcome) (pool : PoolState)
    (nid : String) (queue : List (List Char × List Nat)) :
    ((patch_note o).1 = true ↔
        ∃ i, i ≤ 3 ∧ patch_success (o i) ∧ ∀ j < i, patch_retryable (o j))
      ∧ ((patch_note o).2 = [] ∨ (patch_note o).2 = [1 / 2]
          ∨ (patch_note o).2 = [1 / 2, 1] ∨ (patch_note o).2 = [1 / 2, 1, 2])
      ∧ (∀ c, o 0 = PatchOutcome.status c → 400 ≤ c → c < 500 →
          patch_note o = (false, []))
      ∧ do_send_after pool nid false queue = (release_note pool nid, queue)
      ∧ do_send_after pool nid true queue = (pool, queue) := by
  refine ⟨patch_note_success_iff o, patch_note_delays o, ?_, rfl, rfl⟩
  intro c h0 hc1 hc2
  have e : patch_note o = patch_note_step o 0 (patch_note_go o [1, 2, 3]) := rfl
  rw [e]
  simp only [patch_note_step, h0]
  rw [if_neg (by omega), if_neg (by rintro ⟨hset, -⟩; rcases hset with h | h | h | h <;> omega)]

/-- Instantiation of `patch_note_retry_policy`: a 404 on the first attempt
fails immediately with no backoff sleeps. -/
theorem patch_note_retry_policy_witness :
    patch_note (fun _ => PatchOutcome.status 404) = (false, []) :=
  (patch_note_retry_policy (fun _ => PatchOutcome.status 404) ⟨∅, ∅⟩ "1_1_1" []).2.2.1
    404 rfl (by norm_num) (by norm_num)

/-! ### Tunnel loops (`TunnelHandler.handle`, src/client/tunnel.py
lines 102-194, and `ServerTunnelHandler._tunnel_loop`, src/server/tunnel.py
lines 89-193) -/

theorem range'_append_nat (s m n : Nat) :
    List.range' s m ++ List.range' (s + m) n = List.range' s (m + n) := by
  have h := List.range'_append s m n 1
  simp only [Nat.mul_one, Nat.one_mul] at h
  rw [Nat.add_comm m n]
  exact h

theorem range'_glue {s k1 k2 m : Nat} {l1 l2 : List Nat}
    (h1 : l1 = List.range' (s + 1) k1)
    (h2 : l2 = List.range' (m + 1) k2)
    (hm : m = s + k1) :
    l1 ++ l2 = List.range' (s + 1) (k1 + k2) := by
  subst hm
  subst h1
  subst h2
  have h := range'_append_nat (s + 1) k1 k2
  rw [show s + 1 + k1 = s + k1 + 1 by omega] at h
  exact h

/-- The loop-local counters of a tunnel loop: the outgoing buffer
(`buffer_to_server` / `buffer_from_target`), the number of chunks sent
(`chunk_id_sent` / `last_chunk_sent`) and the number of chunks consumed
(`chunk_id_received` / `last_chunk_received`). -/
structure TunnelState where
  buffer : List Nat
  sent : Nat
  recvd : Nat
deriving DecidableEq

/-- What one tunnel-loop iteration gives back: the new state, the chunks
passed to `put_chunk` (with their numbers), the chunk indices consumed via
`head_chunk`/`get_chunk`, and whether the loop breaks. -/
structure IterResult where
  state : TunnelState
  emitted : List (Nat × List Nat)
  consumed : List Nat
  brk : Bool

/-- What a whole loop run gives back after the final flush. -/
structure RunResult where
  state : TunnelState
  emitted : List (Nat × List Nat)
  consumed : List Nat

/-- What one client-loop iteration observes from its environment: whether
`select` reported the client socket readable and what `recv` returned
(`[]` models EOF or a recv error, which breaks the loop), whether the
`chunk_idle_timeout` test fired, what `head_chunk`/`get_chunk` yielded for
the expected chunk (`none` when absent), and whether the
`tunnel_idle_timeout` check fired at the end of the iteration. -/
structure ClientObs where
  readable : Bool
  recv_data : List Nat
  idle_fire : Bool
  chunk_avail : Option (List Nat)
  idle_timeout : Bool

/-- One iteration of the client tunnel loop (`TunnelHandler.handle`,
src/client/tunnel.py lines 102-170). Phases in code order: read client
data with the overflow flush as chunk `sent + 1` (lines 108-127, breaking
on EOF before anything else); the idle flush as chunk `sent + 1`
(lines 130-139); the consume step, which always asks for chunk
`recvd + 1` and advances `recvd` only when `get_chunk` returned non-empty
data (lines 142-162); the idle-timeout break (lines 165-167). -/
def client_iter (chunk_size : Nat) (st : TunnelState) (o : ClientObs) : IterResult :=
  if o.readable ∧ o.recv_data = [] then ⟨st, [], [], true⟩
  else
    let a : List Nat × Nat × List (Nat × List Nat) :=
      if o.readable then
        if st.buffer.length + o.recv_data.length > chunk_size then
          if st.buffer.length > 0 then
            (o.recv_data, st.sent + 1, [(st.sent + 1, st.buffer)])
          else (o.recv_data, st.sent, [])
        else (st.buffer ++ o.recv_data, st.sent, [])
      else (st.buffer, st.sent, [])
    let b : List Nat × Nat × List (Nat × List Nat) :=
      if a.1.length > 0 ∧ o.idle_fire then
        ([], a.2.1 + 1, a.2.2 ++ [(a.2.1 + 1, a.1)])
      else a
    let r : Nat × List Nat :=
      match o.chunk_avail with
      | some d => if d ≠ [] then (st.recvd + 1, [st.recvd + 1]) else (st.recvd, [])
      | none => (st.recvd, [])
    ⟨⟨b.1, b.2.1, r.1⟩, b.2.2, r.2, o.idle_timeout⟩

/-- The final flush after the loop (client lines 173-176, server
lines 170-173): a non-empty residual buffer goes out as chunk
`sent + 1`. -/
def tunnel_flush (st : TunnelState) : TunnelState × List (Nat × List Nat) :=
  if st.buffer.length > 0 then (⟨[], st.sent + 1, st.recvd⟩, [(st.sent + 1, st.buffer)])
  else (st, [])

/-- The client tunnel loop over a sequence of observations, ending with the
final flush (either on break or when the observations run out). -/
def client_run (chunk_size : Nat) (st : TunnelState) :
    List ClientObs → RunResult
  | [] => ⟨(tunnel_flush st).1, (tunnel_flush st).2, []⟩
  | o :: rest =>
    if (client_iter chunk_size st o).brk then
      ⟨(tunnel_flush (client_iter chunk_size st o).state).1,
        (client_iter chunk_size st o).emitted
          ++ (tunnel_flush (client_iter chunk_size st o).state).2,
        (client_iter chunk_size st o).consumed⟩
    else
      ⟨(client_run chunk_size (client_iter chunk_size st o).state rest).state,
        (client_iter chunk_size st o).emitted
          ++ (client_run chunk_size (client_iter chunk_size st o).state rest).emitted,
        (client_iter chunk_size st o).consumed
          ++ (client_run chunk_size (client_iter chunk_size st o).state rest).consumed⟩

/-- What one server-loop iteration observes: what `head_chunk`/`get_chunk`
yielded for the expected chunk, whether a socket error broke the
send/receive section, whether `select` reported the target readable and
what `recv` returned (`[]` models the target closing, which breaks),
whether the `chunk_idle_timeout` test fired, and whether the
`tunnel_idle_timeout` check fired. -/
structure ServerObs where
  chunk_avail : Option (List Nat)
  sock_error : Bool
  readable : Bool
  recv_data : List Nat
  idle_fire : Bool
  idle_timeout : Bool

/-- One iteration of the server tunnel loop
(`ServerTunnelHandler._tunnel_loop`, src/server/tunnel.py lines 96-167).
Phases in code order: the consume step, which always asks for chunk
`recvd + 1` and advances only on non-empty data (lines 100-120); the
target-read section with the overflow flush as chunk `sent + 1`
(lines 123-143, breaking on a closed target or a socket error); the idle
flush as chunk `sent + 1` (lines 146-155); the idle-timeout break
(lines 162-164). -/
def server_iter (chunk_size : Nat) (st : TunnelState) (o : ServerObs) : IterResult :=
  let r : Nat × List Nat :=
    match o.chunk_avail with
    | some d => if d ≠ [] then (st.recvd + 1, [st.recvd + 1]) else (st.recvd, [])
    | none => (st.recvd, [])
  if o.sock_error then ⟨⟨st.buffer, st.sent, r.1⟩, [], r.2, true⟩
  else if o.readable ∧ o.recv_data = [] then ⟨⟨st.buffer, st.sent, r.1⟩, [], r.2, true⟩
  else
    let a : List Nat × Nat × List (Nat × List Nat) :=
      if o.readable then
        if st.buffer.length + o.recv_data.length > chunk_size then
          if st.buffer.length > 0 then
            (o.recv_data, st.sent + 1, [(st.sent + 1, st.buffer)])
          else (o.recv_data, st.sent, [])
        else (st.buffer ++ o.recv_data, st.sent, [])
      else (st.buffer, st.sent, [])
    let b : List Nat × Nat × List (Nat × List Nat) :=
      if a.1.length > 0 ∧ o.idle_fire then
        ([], a.2.1 + 1, a.2.2 ++ [(a.2.1 + 1, a.1)])
      else a
    ⟨⟨b.1, b.2.1, r.1⟩, b.2.2, r.2, o.idle_timeout⟩

/-- The server tunnel loop over a sequence of observations, ending with the
final flush. -/
def server_run (chunk_size : Nat) (st : TunnelState) :
    List ServerObs → RunResult
  | [] => ⟨(tunnel_flush st).1, (tunnel_flush st).2, []⟩
  | o :: rest =>
    if (server_iter chunk_size st o).brk then
      ⟨(tunnel_flush (server_iter chunk_size st o).state).1,
        (server_iter chunk_size st o).emitted
          ++ (tunnel_flush (server_iter chunk_size st o).state).2,
        (server_iter chunk_size st o).consumed⟩
    else
      ⟨(server_run chunk_size (server_iter chunk_size st o).state rest).state,
        (server_iter chunk_size st o).emitted
          ++ (server_run chunk_size (server_iter chunk_size st o).state rest).emitted,
        (server_iter chunk_size st o).consumed
          ++ (server_run chunk_size (server_iter chunk_size st o).state rest).consumed⟩

/-- Dense numbering of one iteration's emissions and consumptions. -/
def IterDense (st : TunnelState) (r : IterResult) : Prop :=
  r.emitted.map Prod.fst = List.range' (st.sent + 1) r.emitted.length
    ∧ r.state.sent = st.sent + r.emitted.length
    ∧ r.consumed = List.range' (st.recvd + 1) r.consumed.length
    ∧ r.state.recvd = st.recvd + r.consumed.length

theorem client_iter_dense (chunk_size : Nat) (st : TunnelState) (o : ClientObs) :
    IterDense st (client_iter chunk_size st o) := by
  unfold IterDense client_iter
  dsimp only
  rcases o.chunk_avail with _ | d
  · split_ifs <;> simp_all [List.range']
  · rcases eq_or_ne d [] with rfl | hd <;>
      split_ifs <;> simp_all [List.range']

theorem server_iter_dense (chunk_size : Nat) (st : TunnelState) (o : ServerObs) :
    IterDense st (server_iter chunk_size st o) := by
  unfold IterDense server_iter
  dsimp only
  rcases o.chunk_avail with _ | d
  · split_ifs <;> simp_all [List.range']
  · rcases eq_or_ne d [] with rfl | hd <;>
      split_ifs <;> simp_all [List.range']

theorem tunnel_flush_dense (st : TunnelState) :
    (tunnel_flush st).2.map Prod.fst
        = List.range' (st.sent + 1) (tunnel_flush st).2.length
      ∧ (tunnel_flush st).1.sent = st.sent + (tunnel_flush st).2.length
      ∧ (tunnel_flush st).1.recvd = st.recvd := by
  unfold tunnel_flush
  split_ifs <;> simp [List.range']

theorem client_run_dense (chunk_size : Nat) (obs : List ClientObs) (st : TunnelState) :
    (client_run chunk_size st obs).emitted.map Prod.fst
        = List.range' (st.sent + 1) (client_run chunk_size st obs).emitted.length
      ∧ (client_run chunk_size st obs).state.sent
          = st.sent + (client_run chunk_size st obs).emitted.length
      ∧ (client_run chunk_size st obs).consumed
          = List.range' (st.recvd + 1) (client_run chunk_size st obs).consumed.length
      ∧ (client_run chunk_size st obs).state.recvd
          = st.recvd + (client_run chunk_size st obs).consumed.length := by
  induction obs generalizing st with
  | nil =>
    have hf := tunnel_flush_dense st
    unfold client_run
    exact ⟨hf.1, hf.2.1, by simp [List.range'], by simp [hf.2.2]⟩
  | cons o rest ih =>
    have hit := client_iter_dense chunk_size st o
    obtain ⟨he, hs, hc, hr⟩ := hit
    unfold client_run
    split_ifs with hbrk
    · have hf := tunnel_flush_dense (client_iter chunk_size st o).state
      simp only [List.map_append, List.length_append]
      refine ⟨range'_glue he hf.1 hs, ?_, hc, ?_⟩
      · rw [hf.2.1, hs]
        omega
      · rw [hf.2.2, hr]
    · have ihr := ih (client_iter chunk_size st o).state
      simp only [List.map_append, List.length_append]
      refine ⟨range'_glue he ihr.1 hs, ?_, range'_glue hc ihr.2.2.1 hr, ?_⟩
      · rw [ihr.2.1, hs]
        omega
      · rw [ihr.2.2.2, hr]
        omega

theorem server_run_dense (chunk_size : Nat) (obs : List ServerObs) (st : TunnelState) :
    (server_run chunk_size st obs).emitted.map Prod.fst
        = List.range' (st.sent + 1) (server_run chunk_size st obs).emitted.length
      ∧ (server_run chunk_size st obs).state.sent
          = st.sent + (server_run chunk_size st obs).emitted.length
      ∧ (server_run chunk_size st obs).consumed
          = List.range' (st.recvd + 1) (server_run chunk_size st obs).consumed.length
      ∧ (server_run chunk_size st obs).state.recvd
          = st.recvd + (server_run chunk_size st obs).consumed.length := by
  induction obs generalizing st with
  | nil =>
    have hf := tunnel_flush_dense st
    unfold server_run
    exact ⟨hf.1, hf.2.1, by simp [List.range'], by simp [hf.2.2]⟩
  | cons o rest ih =>
    have hit := server_iter_dense chunk_size st o
    obtain ⟨he, hs, hc, hr⟩ := hit
    unfold server_run
    split_ifs with hbrk
    · have hf := tunnel_flush_dense (server_iter chunk_size st o).state
      simp only [List.map_append, List.length_append]
      refine ⟨range'_glue he hf.1 hs, ?_, hc, ?_⟩
      · rw [hf.2.1, hs]
        omega
      · rw [hf.2.2, hr]
    · have ihr := ih (server_iter chunk_size st o).state
      simp only [List.map_append, List.length_append]
      refine ⟨range'_glue he ihr.1 hs, ?_, range'_glue hc ihr.2.2.1 hr, ?_⟩
      · rw [ihr.2.1, hs]
        omega
      · rw [ihr.2.2.2, hr]
        omega

/-- C3. Dense chunk numbering in the tunnel loops: in every execution of
the client loop (`TunnelHandler.handle`) or the server loop
(`ServerTunnelHandler._tunnel_loop`), starting from
`sent = 0, recvd = 0` with an empty buffer, the chunk numbers passed to
`put_chunk` are exactly `1, 2, …, k` (where `k` is the final sent
counter, incremented by exactly one before each overflow flush, idle
flush and final flush), with no gaps and no duplicates; and the consumer
side, which only ever requests chunk `recvd + 1`, consumes chunk indices
in strictly increasing order `1, 2, …, m` starting at 1. -/
theorem tunnel_chunk_numbering (chunk_size : Nat)
    (cobs : List ClientObs) (sobs : List ServerObs) :
    ((client_run chunk_size ⟨[], 0, 0⟩ cobs).emitted.map Prod.fst
        = List.range' 1 (client_run chunk_size ⟨[], 0, 0⟩ cobs).state.sent)
      ∧ ((client_run chunk_size ⟨[], 0, 0⟩ cobs).consumed
          = List.range' 1 (client_run chunk_size ⟨[], 0, 0⟩ cobs).state.recvd)
      ∧ ((server_run chunk_size ⟨[], 0, 0⟩ sobs).emitted.map Prod.fst
          = List.range' 1 (server_run chunk_size ⟨[], 0, 0⟩ sobs).state.sent)
      ∧ ((server_run chunk_size ⟨[], 0, 0⟩ sobs).consumed
          = List.range' 1 (server_run chunk_size ⟨[], 0, 0⟩ sobs).state.recvd) := by
  have hc := client_run_dense chunk_size cobs ⟨[], 0, 0⟩
  have hs := server_run_dense chunk_size sobs ⟨[], 0, 0⟩
  refine ⟨?_, ?_, ?_, ?_⟩
  · rw [hc.1, hc.2.1]; simp
  · rw [hc.2.2.1, hc.2.2.2]; simp
  · rw [hs.1, hs.2.1]; simp
  · rw [hs.2.2.1, hs.2.2.2]; simp

end TumanVPN
